import Mathlib

/-!
# A verification development for the firefly incremental analysis core

Shallow embedding of `src/parser.rs` (the trivia-preserving CST parser) and
`src/env.rs` (the incremental compilation engine), with theorems checking the
natural-language specification against the code.

External collaborators of the two source files (lexer, syntax-tree builder,
spans, errors, file records, storage arena, dependency graph, scope tracker,
lowering, filesystem, notification channel) are not part of the provided
sources; they are modelled from the spec's consumed-interface sections (§2,
§4.1, §6) and kept as small and literal as possible.  Everything else is
translated directly from the Rust sources.
-/

namespace Firefly

/-- Modelled from the spec (§6, `span.rs` is external): a source span.  Spans
are opaque to the parser and engine (they are only copied, stored and
compared), so a pair of offsets suffices. -/
structure Span where
  start : Nat
  stop : Nat
deriving DecidableEq, Repr

/-- `Span::empty()`. -/
def Span.empty : Span := ⟨0, 0⟩

/-- Modelled from the spec (`span.rs` is external): a value with a span. -/
structure Spanned (α : Type) where
  data : α
  span : Span
deriving DecidableEq, Repr

/-- Modelled from the spec (§7, `errors.rs` is external): a reported
diagnostic, a message anchored at a span. -/
structure Error where
  message : String
  span : Span
deriving DecidableEq, Repr

/-- `Error::new`. -/
def Error.new (message : String) (span : Span) : Error := ⟨message, span⟩

/-- Modelled from the spec (§6): the kinds of lexeme the external token
source yields: "paren-open, paren-close, string, identifier, number,
quote-prefix, whitespace, comment, and a malformed-lexeme kind".  In the Rust
source these are the lexeme-producing variants of the single `SyntaxKind`
enum; the node-only variants (`Root`, `List`, `Quote`) are in `NodeKind`
below, and the parser's catch-all `todo!` branch is unreachable because the
lexer never yields a node-only kind. -/
inductive TokKind where
  | lpar
  | rpar
  | string
  | identifier
  | number
  | simpleQuote
  | whitespace
  | comment
  | error
deriving DecidableEq, Repr

/-- Modelled from the spec (§4.2): the node kinds of the concrete syntax
tree: "Root, List, Quote, String, Identifier, Number are tree node kinds; a
syntax error is itself represented as a node". -/
inductive NodeKind where
  | root
  | list
  | quote
  | string
  | identifier
  | number
  | error
deriving DecidableEq, Repr

/-- A token as the parser receives it from the lexer: the Rust
`(SyntaxKind, Spanned<String>)` pair. -/
structure Tok where
  kind : TokKind
  text : String
  span : Span
deriving DecidableEq, Repr

/-- Modelled from the spec (§6, the syntax tree builder is external): a
concrete-syntax-tree element, either an interior node (kind, the span given
at `start_node`, the span given at `finish_node`, children in insertion
order) or a leaf token. -/
inductive Child where
  | node (kind : NodeKind) (start stop : Span) (children : List Child)
  | tok (t : Tok)
deriving Repr

mutual
/-- The leaf tokens of a tree element, in tree order. -/
def Child.leaves : Child → List Tok
  | .tok t => [t]
  | .node _ _ _ cs => leavesList cs
/-- The leaf tokens of a child list, in order. -/
def leavesList : List Child → List Tok
  | [] => []
  | c :: cs => c.leaves ++ leavesList cs
end

mutual
/-- Whether the tree contains an interior node of kind `Error`. -/
def Child.hasErrorNode : Child → Bool
  | .tok _ => false
  | .node k _ _ cs => k = NodeKind.error || anyErrorNode cs
/-- Whether any element of a child list contains an `Error` node. -/
def anyErrorNode : List Child → Bool
  | [] => false
  | c :: cs => c.hasErrorNode || anyErrorNode cs
end

mutual
/-- Whether the tree contains an interior node of kind `Quote` whose leaf
tokens include the given token (a closed quote node wrapping it). -/
def Child.hasQuoteNodeWith (t : Tok) : Child → Bool
  | .tok _ => false
  | .node k _ _ cs =>
    (decide (k = NodeKind.quote) && (leavesList cs).contains t) || anyQuoteNodeWith t cs
/-- `Child.hasQuoteNodeWith` over a child list. -/
def anyQuoteNodeWith (t : Tok) : List Child → Bool
  | [] => false
  | c :: cs => c.hasQuoteNodeWith t || anyQuoteNodeWith t cs
end

/-! ## The syntax tree builder

Modelled from the spec (§6): `start_node(kind, span)` pushes a fresh open
node, `finish_node(span)` closes the innermost open node and appends it to
its parent's children, `token(kind, text, span)` appends a leaf to the
innermost open node; insertion order is child order.  The builder state is
the stack of open nodes, innermost first. -/

/-- An open node in the builder: its kind, the span given at `start_node`,
and the children accumulated so far, in order. -/
structure Frame where
  kind : NodeKind
  span : Span
  children : List Child

/-- `builder.token(...)`: append a leaf token to the innermost open node.
The parser always has an open node (the root) when it appends, so the
empty-stack branch is unreachable. -/
def pushTok (t : Tok) : List Frame → List Frame
  | [] => []
  | f :: rest => { f with children := f.children ++ [Child.tok t] } :: rest

/-- `builder.finish_node(span)`: close the innermost open node into its
parent.  The parser only closes nodes nested under the root, so the
one-frame and zero-frame branches are unreachable. -/
def closeFrame (sp : Span) : List Frame → List Frame
  | f :: f2 :: rest =>
    { f2 with children := f2.children ++ [Child.node f.kind f.span sp f.children] } :: rest
  | stk => stk

/-- Close a nonempty stack of open nodes outside-in until a single tree
remains (`builder.finish`); `fr` is the innermost open node. -/
def finishGo (sp : Span) (fr : Frame) : List Frame → Child
  | [] => Child.node fr.kind fr.span sp fr.children
  | f2 :: rest =>
    finishGo sp ⟨f2.kind, f2.span, f2.children ++ [Child.node fr.kind fr.span sp fr.children]⟩ rest

/-- `builder.finish(span)`: produce the finished tree.  The parser calls it
with exactly the root node open. -/
def finishAll (sp : Span) : List Frame → Child
  | [] => Child.node .root Span.empty sp []
  | fr :: rest => finishGo sp fr rest

/-- All leaf tokens currently stored in the builder stack, in final tree
order (outermost node's children first). -/
def stackToks : List Frame → List Tok
  | [] => []
  | f :: rest => stackToks rest ++ leavesList f.children

/-! ## The CST parser (`src/parser.rs`)

The Rust `Parser` owns a peekable lexer, the builder, the error list and a
`span` cursor; the model carries the remaining token list in the same state
record.  The mutually recursive procedures take a fuel argument standing for
Rust's unbounded recursion; `parse` passes fuel that provably suffices for
its input (see the fuel lemmas below), so the fuel-exhaustion branches are
never taken. -/

/-- The parser state: remaining tokens (the peekable lexer), the builder's
open-node stack, the errors collected so far, and the `span` field. -/
structure St where
  toks : List Tok
  stk : List Frame
  errors : List Error
  span : Span

/-- The response of parsing a single expression. -/
inductive Response where
  | Ok
  | Eof
  | RParen
deriving DecidableEq, Repr

/-- `current_span`: the peeked token's span if any, else the stored one;
also stores it back into `self.span`. -/
def current_span (st : St) : Span × St :=
  match st.toks with
  | t :: _ => (t.span, { st with span := t.span })
  | [] => (st.span, st)

/-- `start_node`: reads `current_span`, then opens a node of that kind. -/
def start_node (k : NodeKind) (st : St) : St :=
  let sp := (current_span st).1
  let st := (current_span st).2
  { st with stk := Frame.mk k sp [] :: st.stk }

/-- `finish_node(span)`: closes the innermost open node. -/
def finish_node (sp : Span) (st : St) : St :=
  { st with stk := closeFrame sp st.stk }

/-- `bump`: consume the current token and append it to the open node.  The
Rust code unwraps the lexer here; every call site has already checked a
token is present, so the empty branch is unreachable. -/
def bump (st : St) : St :=
  match st.toks with
  | [] => st
  | t :: rest => { st with toks := rest, stk := pushTok t st.stk }

/-- The loop body of `skip_whitespace`, driven by the token list so that the
recursion is structural; `parse` always calls it with `ts = st.toks`. -/
def skipWsGo : List Tok → St → St
  | [], st => st
  | t :: rest, st =>
    match t.kind with
    | .whitespace => skipWsGo rest (bump st)
    | .comment => skipWsGo rest (bump st)
    | _ => st

/-- `skip_whitespace`: bump leading whitespace and comment tokens. -/
def skip_whitespace (st : St) : St := skipWsGo st.toks st

/-- `string`: wrap the current token in a `String` node. -/
def string (st : St) : St :=
  let st := start_node .string st
  let sp := (current_span st).1
  let st := (current_span st).2
  finish_node sp (bump st)

/-- `identifier`: wrap the current token in an `Identifier` node. -/
def identifier (st : St) : St :=
  let st := start_node .identifier st
  let sp := (current_span st).1
  let st := (current_span st).2
  finish_node sp (bump st)

/-- `number`: wrap the current token in a `Number` node. -/
def number (st : St) : St :=
  let st := start_node .number st
  let sp := (current_span st).1
  let st := (current_span st).2
  finish_node sp (bump st)

/-- `error`: record an error at the current token's span, and wrap that one
token in an `Error` node. -/
def error (message : String) (st : St) : St :=
  let sp := (current_span st).1
  let st := (current_span st).2
  let st := start_node .error st
  let st := { st with errors := st.errors ++ [Error.new message sp] }
  let sp2 := (current_span st).1
  let st := (current_span st).2
  finish_node sp2 (bump st)

/-- The four mutually recursive parsing procedures, indexed by fuel so the
recursion is structural: the tuple holds `(expr, list, listLoop, quote)` at
the given fuel.  `expr (f+1)` calls `list f`/`quote f`; `listLoop (f+1)`
calls `expr f` and `listLoop f`; `list`/`quote` at a given fuel call
`listLoop`/`expr` at that same fuel, exactly as the Rust call graph does
(each named wrapper below restates its own body as an equation). -/
def parserCore : Nat →
    ((St → St × Response) × (Span → St → St) × (Span → St → St) × (Span → St → St))
  | 0 =>
    let exprF : St → St × Response := fun st => (st, Response.Eof)
    let listLoopF : Span → St → St := fun _ st => st
    let listF : Span → St → St := fun start_span st =>
      listLoopF start_span (bump (start_node .list st))
    let quoteF : Span → St → St := fun start_span st =>
      let st := start_node .quote st
      let st := bump st
      let sp := (current_span st).1
      let st := (current_span st).2
      let res := exprF st
      match res.2 with
      | Response.Ok => finish_node sp res.1
      | _ =>
        finish_node sp
          { res.1 with errors := res.1.errors ++ [Error.new "no expression" start_span] }
    (exprF, listF, listLoopF, quoteF)
  | f + 1 =>
    let prev := parserCore f
    let exprF : St → St × Response := fun st =>
      let st := skip_whitespace st
      let sp := (current_span st).1
      let st := (current_span st).2
      match st.toks with
      | [] => (st, Response.Eof)
      | t :: _ =>
        match t.kind with
        | .rpar => (st, Response.RParen)
        | .lpar => (prev.2.1 sp st, Response.Ok)
        | .string => (string st, Response.Ok)
        | .identifier => (identifier st, Response.Ok)
        | .number => (number st, Response.Ok)
        | .simpleQuote => (prev.2.2.2 sp st, Response.Ok)
        | .error =>
          let st := bump st
          ({ st with errors := st.errors ++ [Error.new "unfinished string" sp] }, Response.Ok)
        | .whitespace => (st, Response.Ok)
        | .comment => (st, Response.Ok)
    let listLoopF : Span → St → St := fun start_span st =>
      let sp := (current_span st).1
      let st := (current_span st).2
      let res := prev.1 st
      match res.2 with
      | Response.Ok => prev.2.2.1 start_span res.1
      | Response.Eof =>
        finish_node sp { res.1 with errors := res.1.errors ++ [Error.new "unmatched" start_span] }
      | Response.RParen => finish_node sp (bump res.1)
    let listF : Span → St → St := fun start_span st =>
      listLoopF start_span (bump (start_node .list st))
    let quoteF : Span → St → St := fun start_span st =>
      let st := start_node .quote st
      let st := bump st
      let sp := (current_span st).1
      let st := (current_span st).2
      let res := exprF st
      match res.2 with
      | Response.Ok => finish_node sp res.1
      | _ =>
        finish_node sp
          { res.1 with errors := res.1.errors ++ [Error.new "no expression" start_span] }
    (exprF, listF, listLoopF, quoteF)

/-- `expr`: parse one expression; returns the response telling the caller
whether an expression was parsed, the input ended, or a `)` was seen.  The
`whitespace`/`comment` branches are unreachable — `skip_whitespace` has just
run (`skip_whitespace_head` below) — and stand for the Rust catch-all
`todo!`. -/
def expr (f : Nat) : St → St × Response := (parserCore f).1

/-- `list`: open a `List` node, consume the `(`, then parse elements. -/
def list (f : Nat) : Span → St → St := (parserCore f).2.1

/-- The `loop` inside `list`: parse expressions until `)` or end of input;
on end of input record "unmatched" at the opening paren's span. -/
def listLoop (f : Nat) : Span → St → St := (parserCore f).2.2.1

/-- `quote`: open a `Quote` node, consume the `'`, parse one expression; if
none follows record "no expression" at the quote's span; close either way. -/
def quote (f : Nat) : Span → St → St := (parserCore f).2.2.2

theorem expr_zero (st : St) : expr 0 st = (st, Response.Eof) := rfl

theorem expr_succ (f : Nat) (st : St) :
    expr (f + 1) st =
      (let st := skip_whitespace st
       let sp := (current_span st).1
       let st := (current_span st).2
       match st.toks with
       | [] => (st, Response.Eof)
       | t :: _ =>
         match t.kind with
         | .rpar => (st, Response.RParen)
         | .lpar => (list f sp st, Response.Ok)
         | .string => (string st, Response.Ok)
         | .identifier => (identifier st, Response.Ok)
         | .number => (number st, Response.Ok)
         | .simpleQuote => (quote f sp st, Response.Ok)
         | .error =>
           let st := bump st
           ({ st with errors := st.errors ++ [Error.new "unfinished string" sp] }, Response.Ok)
         | .whitespace => (st, Response.Ok)
         | .comment => (st, Response.Ok)) := rfl

theorem list_eq (f : Nat) (start_span : Span) (st : St) :
    list f start_span st = listLoop f start_span (bump (start_node .list st)) := by
  cases f <;> rfl

theorem listLoop_zero (sp : Span) (st : St) : listLoop 0 sp st = st := rfl

theorem listLoop_succ (f : Nat) (start_span : Span) (st : St) :
    listLoop (f + 1) start_span st =
      (let sp := (current_span st).1
       let st := (current_span st).2
       let res := expr f st
       match res.2 with
       | Response.Ok => listLoop f start_span res.1
       | Response.Eof =>
         finish_node sp { res.1 with errors := res.1.errors ++ [Error.new "unmatched" start_span] }
       | Response.RParen => finish_node sp (bump res.1)) := rfl

theorem quote_eq (f : Nat) (start_span : Span) (st : St) :
    quote f start_span st =
      (let st := start_node .quote st
       let st := bump st
       let sp := (current_span st).1
       let st := (current_span st).2
       let res := expr f st
       match res.2 with
       | Response.Ok => finish_node sp res.1
       | _ =>
         finish_node sp
           { res.1 with errors := res.1.errors ++ [Error.new "no expression" start_span] }) := by
  cases f <;> rfl

/-- The `loop` inside `Parser::parse`: at top level only `(` may start a
form; anything else becomes an "Expected (" error node. -/
def parseLoop : Nat → St → St
  | 0, st => st
  | f + 1, st =>
    let st := skip_whitespace st
    let sp := (current_span st).1
    let st := (current_span st).2
    match st.toks with
    | [] => st
    | t :: _ =>
      match t.kind with
      | .lpar => parseLoop f (list f sp st)
      | _ => parseLoop f (error "Expected (" st)

/-- The fuel `parse` hands to the loop; sufficient for any input of this
length (see the fuel lemmas). -/
def parseFuel (ts : List Tok) : Nat := 4 * ts.length + 9

/-- `Parser::parse` / the free function `parse`: run the parser over a token
stream, returning the finished tree and the error list.  The external lexer
is the producer of the token stream (see `lexes`). -/
def parse (ts : List Tok) : Child × List Error :=
  let st : St := ⟨ts, [], [], Span.empty⟩
  let st := start_node .root st
  let st := parseLoop (parseFuel ts) st
  (finishAll st.span st.stk, st.errors)

/-! ## Parser metatheory: token conservation, stack shape, termination fuel -/

/-- The kind of the root of a tree element, when it is an interior node. -/
def kindOf : Child → Option NodeKind
  | .node k _ _ _ => some k
  | .tok _ => none

/-- The kind of the outermost open node of a builder stack. -/
def lastKind : List Frame → Option NodeKind
  | [] => none
  | [f] => some f.kind
  | _ :: f2 :: rest => lastKind (f2 :: rest)

theorem leavesList_append (a b : List Child) :
    leavesList (a ++ b) = leavesList a ++ leavesList b := by
  induction a with
  | nil => simp [leavesList]
  | cons c cs ih => simp [leavesList, ih]

theorem stackToks_pushTok (t : Tok) (stk : List Frame) (h : stk ≠ []) :
    stackToks (pushTok t stk) = stackToks stk ++ [t] := by
  cases stk with
  | nil => exact absurd rfl h
  | cons f rest =>
    simp [pushTok, stackToks, leavesList_append, leavesList, Child.leaves]

theorem stackToks_closeFrame (sp : Span) (stk : List Frame) :
    stackToks (closeFrame sp stk) = stackToks stk := by
  match stk with
  | [] => rfl
  | [f] => rfl
  | f :: f2 :: rest =>
    simp [closeFrame, stackToks, leavesList_append, leavesList, Child.leaves, List.append_assoc]

theorem pushTok_ne_nil (t : Tok) (stk : List Frame) (h : stk ≠ []) :
    pushTok t stk ≠ [] := by
  cases stk with
  | nil => exact absurd rfl h
  | cons f rest => simp [pushTok]

theorem lastKind_pushTok (t : Tok) (stk : List Frame) :
    lastKind (pushTok t stk) = lastKind stk := by
  match stk with
  | [] => rfl
  | [f] => rfl
  | f :: f2 :: rest => simp [pushTok, lastKind]

theorem closeFrame_ne_nil (sp : Span) (stk : List Frame) (h : stk ≠ []) :
    closeFrame sp stk ≠ [] := by
  match stk with
  | [] => exact absurd rfl h
  | [f] => simp [closeFrame]
  | f :: f2 :: rest => simp [closeFrame]

theorem lastKind_closeFrame (sp : Span) (stk : List Frame) :
    lastKind (closeFrame sp stk) = lastKind stk := by
  match stk with
  | [] => rfl
  | [f] => rfl
  | f :: f2 :: rest =>
    cases rest with
    | nil => simp [closeFrame, lastKind]
    | cons f3 rest' => simp [closeFrame, lastKind]

/-- The facts every parser procedure preserves: tokens are conserved between
the remaining input and the builder stack, the stack stays nonempty with its
outermost node untouched, and the remaining input never grows. -/
def Pres (st st' : St) : Prop :=
  (st.stk ≠ [] →
    stackToks st'.stk ++ st'.toks = stackToks st.stk ++ st.toks ∧
    st'.stk ≠ [] ∧ lastKind st'.stk = lastKind st.stk) ∧
  st'.toks.length ≤ st.toks.length

theorem Pres.refl (st : St) : Pres st st := ⟨fun h => ⟨rfl, h, rfl⟩, le_refl _⟩

theorem Pres.trans {a b c : St} (h1 : Pres a b) (h2 : Pres b c) : Pres a c := by
  refine ⟨fun ha => ?_, le_trans h2.2 h1.2⟩
  obtain ⟨e1, hb, k1⟩ := h1.1 ha
  obtain ⟨e2, hc, k2⟩ := h2.1 hb
  exact ⟨e2.trans e1, hc, k2.trans k1⟩

theorem current_span_snd (st : St) :
    (current_span st).2 = { st with span := (current_span st).1 } := by
  obtain ⟨ts, stk, errs, sp⟩ := st
  cases ts <;> simp [current_span]

theorem pres_span_set (st : St) (sp : Span) : Pres st { st with span := sp } :=
  ⟨fun h => ⟨rfl, h, rfl⟩, le_refl _⟩

theorem pres_current_span (st : St) : Pres st (current_span st).2 := by
  rw [current_span_snd]; exact pres_span_set st _

theorem pres_bump (st : St) : Pres st (bump st) := by
  cases h : st.toks with
  | nil => simp only [bump, h]; exact Pres.refl _
  | cons t rest =>
    refine ⟨fun hs => ?_, ?_⟩
    · refine ⟨?_, ?_, ?_⟩
      · simp [bump, h, stackToks_pushTok t _ hs]
      · simp only [bump, h]; exact pushTok_ne_nil t _ hs
      · simp only [bump, h]; exact lastKind_pushTok t _
    · simp [bump, h]

theorem lastKind_cons (f : Frame) (stk : List Frame) (h : stk ≠ []) :
    lastKind (f :: stk) = lastKind stk := by
  cases stk with
  | nil => exact absurd rfl h
  | cons f2 rest => simp [lastKind]

theorem pres_start_node (k : NodeKind) (st : St) : Pres st (start_node k st) := by
  refine Pres.trans (pres_current_span st) ?_
  simp only [start_node, current_span_snd]
  refine ⟨fun hs => ?_, le_refl _⟩
  have hs' : ({ st with span := (current_span st).1 } : St).stk ≠ [] := hs
  refine ⟨by simp [stackToks, leavesList], by simp, ?_⟩
  exact lastKind_cons _ _ hs'

theorem pres_finish_node (sp : Span) (st : St) : Pres st (finish_node sp st) := by
  refine ⟨fun hs => ?_, le_refl _⟩
  exact ⟨by simp [finish_node, stackToks_closeFrame],
    closeFrame_ne_nil sp _ hs, lastKind_closeFrame sp _⟩

theorem pres_skipWsGo (ts : List Tok) (st : St) : Pres st (skipWsGo ts st) := by
  induction ts generalizing st with
  | nil => exact Pres.refl _
  | cons t rest ih =>
    obtain ⟨tk, tx, tsp⟩ := t
    cases tk <;> simp only [skipWsGo] <;>
      first
        | exact Pres.refl _
        | exact Pres.trans (pres_bump st) (ih _)

theorem pres_skip_whitespace (st : St) : Pres st (skip_whitespace st) :=
  pres_skipWsGo st.toks st

/-- After `skip_whitespace` the next token is not whitespace or a comment. -/
theorem skip_whitespace_head (st : St) :
    ∀ t ∈ (skip_whitespace st).toks.head?,
      t.kind ≠ TokKind.whitespace ∧ t.kind ≠ TokKind.comment := by
  show ∀ t ∈ (skipWsGo st.toks st).toks.head?, _
  have key : ∀ ts (st : St), st.toks = ts → ∀ t ∈ (skipWsGo ts st).toks.head?,
      t.kind ≠ TokKind.whitespace ∧ t.kind ≠ TokKind.comment := by
    intro ts
    induction ts with
    | nil => intro st h t ht; simp [skipWsGo, h] at ht
    | cons t0 rest ih =>
      intro st h t ht
      have hb : (bump st).toks = rest := by simp [bump, h]
      obtain ⟨tk, tx, tsp⟩ := t0
      cases tk <;> simp only [skipWsGo] at ht
      case whitespace => exact ih _ hb t ht
      case comment => exact ih _ hb t ht
      all_goals
        rw [h] at ht
        simp only [List.head?, Option.mem_def, Option.some.injEq] at ht
        subst ht
        exact ⟨by simp, by simp⟩
  exact key st.toks st rfl

theorem pres_string (st : St) : Pres st (string st) := by
  unfold string
  exact Pres.trans (pres_start_node _ st)
    (Pres.trans (pres_current_span _) (Pres.trans (pres_bump _) (pres_finish_node _ _)))

theorem pres_identifier (st : St) : Pres st (identifier st) := by
  unfold identifier
  exact Pres.trans (pres_start_node _ st)
    (Pres.trans (pres_current_span _) (Pres.trans (pres_bump _) (pres_finish_node _ _)))

theorem pres_number (st : St) : Pres st (number st) := by
  unfold number
  exact Pres.trans (pres_start_node _ st)
    (Pres.trans (pres_current_span _) (Pres.trans (pres_bump _) (pres_finish_node _ _)))

theorem pres_push_error (st : St) (e : Error) :
    Pres st { st with errors := st.errors ++ [e] } :=
  ⟨fun h => ⟨rfl, h, rfl⟩, le_refl _⟩

theorem pres_error (m : String) (st : St) : Pres st (error m st) := by
  unfold error
  exact Pres.trans (pres_current_span st)
    (Pres.trans (pres_start_node _ _)
      (Pres.trans (pres_push_error _ _)
        (Pres.trans (pres_current_span _)
          (Pres.trans (pres_bump _) (pres_finish_node _ _)))))

/-- All four mutually recursive parsing procedures preserve `Pres`. -/
theorem pres_mutual : ∀ f : Nat,
    (∀ st, Pres st (expr f st).1) ∧
    (∀ sp st, Pres st (list f sp st)) ∧
    (∀ sp st, Pres st (listLoop f sp st)) ∧
    (∀ sp st, Pres st (quote f sp st)) := by
  intro f
  induction f with
  | zero =>
    have hE : ∀ st : St, Pres st (expr 0 st).1 := by
      intro st
      simp only [expr_zero]
      exact Pres.refl st
    have hLL : ∀ (sp : Span) (st : St), Pres st (listLoop 0 sp st) := by
      intro sp st
      simp only [listLoop_zero]
      exact Pres.refl st
    have hL : ∀ (sp : Span) (st : St), Pres st (list 0 sp st) := by
      intro sp st
      rw [list_eq]
      exact Pres.trans (pres_start_node _ _) (Pres.trans (pres_bump _) (hLL sp _))
    have hQ : ∀ (sp : Span) (st : St), Pres st (quote 0 sp st) := by
      intro sp st
      simp only [quote_eq, expr_zero]
      exact Pres.trans (pres_start_node _ _)
        (Pres.trans (pres_bump _)
          (Pres.trans (pres_current_span _)
            (Pres.trans (pres_push_error _ _) (pres_finish_node _ _))))
    exact ⟨hE, hL, hLL, hQ⟩
  | succ g ih =>
    have hLL : ∀ (sp : Span) (st : St), Pres st (listLoop (g + 1) sp st) := by
      intro sp st
      have h0 := pres_current_span st
      have h1 := ih.1 (current_span st).2
      simp only [listLoop_succ]
      cases hr : (expr g (current_span st).2).2 with
      | Ok => exact Pres.trans h0 (Pres.trans h1 (ih.2.2.1 sp _))
      | Eof =>
        exact Pres.trans h0
          (Pres.trans h1 (Pres.trans (pres_push_error _ _) (pres_finish_node _ _)))
      | RParen =>
        exact Pres.trans h0
          (Pres.trans h1 (Pres.trans (pres_bump _) (pres_finish_node _ _)))
    have hE : ∀ st : St, Pres st (expr (g + 1) st).1 := by
      intro st
      have h0 := pres_skip_whitespace st
      have h1 := pres_current_span (skip_whitespace st)
      simp only [expr_succ]
      cases ht : (current_span (skip_whitespace st)).2.toks with
      | nil => exact Pres.trans h0 h1
      | cons t rest =>
        obtain ⟨tk, tx, tsp⟩ := t
        cases tk
        case rpar => exact Pres.trans h0 h1
        case lpar => exact Pres.trans h0 (Pres.trans h1 (ih.2.1 _ _))
        case string => exact Pres.trans h0 (Pres.trans h1 (pres_string _))
        case identifier => exact Pres.trans h0 (Pres.trans h1 (pres_identifier _))
        case number => exact Pres.trans h0 (Pres.trans h1 (pres_number _))
        case simpleQuote => exact Pres.trans h0 (Pres.trans h1 (ih.2.2.2 _ _))
        case error =>
          exact Pres.trans h0
            (Pres.trans h1 (Pres.trans (pres_bump _) (pres_push_error _ _)))
        case whitespace => exact Pres.trans h0 h1
        case comment => exact Pres.trans h0 h1
    have hL : ∀ (sp : Span) (st : St), Pres st (list (g + 1) sp st) := by
      intro sp st
      rw [list_eq]
      exact Pres.trans (pres_start_node _ _) (Pres.trans (pres_bump _) (hLL sp _))
    have hQ : ∀ (sp : Span) (st : St), Pres st (quote (g + 1) sp st) := by
      intro sp st
      have h0 : Pres st (bump (start_node .quote st)) :=
        Pres.trans (pres_start_node _ _) (pres_bump _)
      have h1 := pres_current_span (bump (start_node .quote st))
      have h2 := hE (current_span (bump (start_node .quote st))).2
      simp only [quote_eq]
      cases hr : (expr (g + 1) (current_span (bump (start_node .quote st))).2).2 with
      | Ok => exact Pres.trans h0 (Pres.trans h1 (Pres.trans h2 (pres_finish_node _ _)))
      | Eof =>
        exact Pres.trans h0
          (Pres.trans h1
            (Pres.trans h2 (Pres.trans (pres_push_error _ _) (pres_finish_node _ _))))
      | RParen =>
        exact Pres.trans h0
          (Pres.trans h1
            (Pres.trans h2 (Pres.trans (pres_push_error _ _) (pres_finish_node _ _))))
    exact ⟨hE, hL, hLL, hQ⟩

theorem pres_expr (f : Nat) (st : St) : Pres st (expr f st).1 := (pres_mutual f).1 st

theorem pres_list (f : Nat) (sp : Span) (st : St) : Pres st (list f sp st) :=
  (pres_mutual f).2.1 sp st

theorem pres_listLoop (f : Nat) (sp : Span) (st : St) : Pres st (listLoop f sp st) :=
  (pres_mutual f).2.2.1 sp st

theorem pres_quote (f : Nat) (sp : Span) (st : St) : Pres st (quote f sp st) :=
  (pres_mutual f).2.2.2 sp st

theorem current_span_toks (st : St) : (current_span st).2.toks = st.toks := by
  rw [current_span_snd]

theorem start_node_toks (k : NodeKind) (st : St) : (start_node k st).toks = st.toks := by
  simp [start_node, current_span_snd]

theorem start_node_stk (k : NodeKind) (st : St) :
    (start_node k st).stk = Frame.mk k (current_span st).1 [] :: st.stk := by
  simp [start_node, current_span_snd]

/-- A `list` call on a state whose input starts with the opening paren
consumes at least that token. -/
theorem list_toks_len (f : Nat) (sp : Span) (st : St) (t : Tok) (rest : List Tok)
    (h : st.toks = t :: rest) : (list f sp st).toks.length ≤ rest.length := by
  rw [list_eq]
  have hb : (bump (start_node .list st)).toks = rest := by
    have : (start_node .list st).toks = t :: rest := by rw [start_node_toks, h]
    simp [bump, this]
  have := (pres_listLoop f sp (bump (start_node .list st))).2
  rw [hb] at this
  exact this

/-- An `error` call on a state with a token available consumes exactly it. -/
theorem error_toks (m : String) (st : St) (t : Tok) (rest : List Tok)
    (h : st.toks = t :: rest) : (error m st).toks = rest := by
  unfold error
  have h1 : (start_node .error (current_span st).2).toks = t :: rest := by
    rw [start_node_toks, current_span_toks, h]
  have h2 : (current_span { start_node .error (current_span st).2 with
      errors := (start_node .error (current_span st).2).errors ++
        [Error.new m (current_span st).1] }).2.toks = t :: rest := by
    rw [current_span_toks]; exact h1
  simp only [finish_node, bump, h2]

theorem pres_parseLoop (f : Nat) (st : St) : Pres st (parseLoop f st) := by
  induction f generalizing st with
  | zero => exact Pres.refl st
  | succ g ih =>
    have h0 := pres_skip_whitespace st
    have h1 := pres_current_span (skip_whitespace st)
    simp only [parseLoop]
    cases ht : (current_span (skip_whitespace st)).2.toks with
    | nil => exact Pres.trans h0 h1
    | cons t rest =>
      obtain ⟨tk, tx, tsp⟩ := t
      cases tk
      case lpar => exact Pres.trans h0 (Pres.trans h1 (Pres.trans (pres_list _ _ _) (ih _)))
      all_goals exact Pres.trans h0 (Pres.trans h1 (Pres.trans (pres_error _ _) (ih _)))

/-- With fuel at least `4·|input| + 5`, the top-level loop consumes the whole
input: the Rust loop runs until the lexer is exhausted, and the fuel is an
artifact of the embedding only. -/
theorem parseLoop_exhaust : ∀ (f : Nat) (st : St),
    4 * st.toks.length + 5 ≤ f → (parseLoop f st).toks = [] := by
  intro f
  induction f with
  | zero => intro st h; omega
  | succ g ih =>
    intro st h
    have hsw : (skip_whitespace st).toks.length ≤ st.toks.length :=
      (pres_skip_whitespace st).2
    simp only [parseLoop]
    cases ht : (current_span (skip_whitespace st)).2.toks with
    | nil => rw [current_span_snd] at ht ⊢; exact ht
    | cons t rest =>
      have hlen : rest.length + 1 ≤ st.toks.length := by
        have : (current_span (skip_whitespace st)).2.toks.length ≤ st.toks.length := by
          rw [current_span_toks]; exact hsw
        rw [ht] at this
        simpa using this
      obtain ⟨tk, tx, tsp⟩ := t
      cases tk
      case lpar =>
        apply ih
        have hl := list_toks_len g (current_span (skip_whitespace st)).1
          (current_span (skip_whitespace st)).2 _ rest ht
        omega
      all_goals
        apply ih
        rw [error_toks _ _ _ rest ht]
        omega

theorem finishGo_leaves (rest : List Frame) : ∀ (fr : Frame) (sp : Span),
    Child.leaves (finishGo sp fr rest) = stackToks (fr :: rest) := by
  induction rest with
  | nil =>
    intro fr sp
    simp [finishGo, Child.leaves, stackToks]
  | cons f2 rest' ih =>
    intro fr sp
    show Child.leaves (finishGo sp _ rest') = _
    rw [ih]
    simp [stackToks, leavesList_append, leavesList, Child.leaves, List.append_assoc]

theorem lastKind_cons_same (f g : Frame) (l : List Frame) (h : f.kind = g.kind) :
    lastKind (f :: l) = lastKind (g :: l) := by
  cases l with
  | nil => simp [lastKind, h]
  | cons x xs => simp [lastKind]

theorem finishGo_kind (rest : List Frame) : ∀ (fr : Frame) (sp : Span),
    kindOf (finishGo sp fr rest) = lastKind (fr :: rest) := by
  induction rest with
  | nil =>
    intro fr sp
    simp [finishGo, kindOf, lastKind]
  | cons f2 rest' ih =>
    intro fr sp
    show kindOf (finishGo sp _ rest') = _
    rw [ih]
    have h1 : lastKind (fr :: f2 :: rest') = lastKind (f2 :: rest') := by simp [lastKind]
    rw [h1]
    exact lastKind_cons_same _ _ _ rfl

theorem finishAll_leaves (sp : Span) (stk : List Frame) (h : stk ≠ []) :
    Child.leaves (finishAll sp stk) = stackToks stk := by
  cases stk with
  | nil => exact absurd rfl h
  | cons fr rest => exact finishGo_leaves rest fr sp

theorem finishAll_kind (sp : Span) (stk : List Frame) (h : stk ≠ []) :
    kindOf (finishAll sp stk) = lastKind stk := by
  cases stk with
  | nil => exact absurd rfl h
  | cons fr rest => exact finishGo_kind rest fr sp

/-- The state `parse` hands to its loop: the root node is open and nothing
has been consumed. -/
theorem parse_initial (ts : List Tok) :
    (start_node .root (⟨ts, [], [], Span.empty⟩ : St)).toks = ts ∧
    (start_node .root (⟨ts, [], [], Span.empty⟩ : St)).stk =
      [Frame.mk .root (current_span (⟨ts, [], [], Span.empty⟩ : St)).1 []] := by
  exact ⟨start_node_toks _ _, by rw [start_node_stk]⟩

/-- Round-trip core: the leaves of the tree `parse` returns are exactly the
input tokens, in order. -/
theorem parse_leaves_eq (ts : List Tok) : Child.leaves (parse ts).1 = ts := by
  have hinit := parse_initial ts
  set st1 := start_node .root (⟨ts, [], [], Span.empty⟩ : St) with hst1
  have hne : st1.stk ≠ [] := by rw [hinit.2]; simp
  have hpres := pres_parseLoop (parseFuel ts) st1
  obtain ⟨hcons, hne2, _⟩ := hpres.1 hne
  have hex : (parseLoop (parseFuel ts) st1).toks = [] := by
    apply parseLoop_exhaust
    rw [hinit.1]
    simp [parseFuel]
  show Child.leaves (finishAll (parseLoop (parseFuel ts) st1).span
    (parseLoop (parseFuel ts) st1).stk) = ts
  rw [finishAll_leaves _ _ hne2]
  have : stackToks st1.stk = [] := by
    rw [hinit.2]
    simp [stackToks, leavesList]
  rw [hex, List.append_nil] at hcons
  rw [hcons, this, List.nil_append, hinit.1]

/-- The tree `parse` returns is always rooted at a `Root` node. -/
theorem parse_root_kind (ts : List Tok) : kindOf (parse ts).1 = some NodeKind.root := by
  have hinit := parse_initial ts
  set st1 := start_node .root (⟨ts, [], [], Span.empty⟩ : St) with hst1
  have hne : st1.stk ≠ [] := by rw [hinit.2]; simp
  have hpres := pres_parseLoop (parseFuel ts) st1
  obtain ⟨_, hne2, hlast⟩ := hpres.1 hne
  show kindOf (finishAll (parseLoop (parseFuel ts) st1).span
    (parseLoop (parseFuel ts) st1).stk) = some NodeKind.root
  rw [finishAll_kind _ _ hne2, hlast, hinit.2]
  simp [lastKind]

/-! ## Claims about the CST parser -/

/-- Modelled from the spec (§6): the external token source turns the input
text into spanned lexemes, and the tree retains every input token, so the
concatenation of the produced tokens' texts is the input string. -/
def lexes (s : String) (ts : List Tok) : Prop :=
  String.join (ts.map Tok.text) = s

/-- C4, counterexample: parsing the single quote token `'` with nothing
following produces one error with message "Expected (" (the top-level loop
accepts only `(`), not the claimed "no expression". -/
theorem claim_C4_counterexample :
    (parse [⟨.simpleQuote, "'", ⟨0, 1⟩⟩]).2 = [⟨"Expected (", ⟨0, 1⟩⟩] ∧
    ∀ e ∈ (parse [⟨.simpleQuote, "'", ⟨0, 1⟩⟩]).2, e.message ≠ "no expression" := by
  constructor
  · decide
  · decide

/-- C4, amended: a lone `'` at top level is consumed by the generic
top-level recovery — exactly one error, "Expected (", anchored at the
quote's span, with the token wrapped in an `Error` node; the "no expression"
error (anchored at the quote's span, with the quote node still closed)
arises when the quote ends the input *inside a list*, as in `('`, where it
is followed by the list's own "unmatched" error. -/
theorem claim_C4_amended :
    ((parse [⟨.simpleQuote, "'", ⟨0, 1⟩⟩]).2 = [⟨"Expected (", ⟨0, 1⟩⟩] ∧
      (parse [⟨.simpleQuote, "'", ⟨0, 1⟩⟩]).1.hasErrorNode = true) ∧
    ((parse [⟨.lpar, "(", ⟨0, 1⟩⟩, ⟨.simpleQuote, "'", ⟨1, 2⟩⟩]).2 =
        [⟨"no expression", ⟨1, 2⟩⟩, ⟨"unmatched", ⟨0, 1⟩⟩] ∧
      (parse [⟨.lpar, "(", ⟨0, 1⟩⟩, ⟨.simpleQuote, "'", ⟨1, 2⟩⟩]).1.hasQuoteNodeWith
        ⟨.simpleQuote, "'", ⟨1, 2⟩⟩ = true) := by
  refine ⟨⟨?_, ?_⟩, ?_, ?_⟩ <;> decide

/-- C5, counterexample: for the input `( <malformed string> )` the parser
records the "unfinished string" error only in the side error list; the
returned tree contains no `Error` node at all (the malformed token is
appended as a plain leaf of the open `List` node). -/
theorem claim_C5_counterexample :
    (parse [⟨.lpar, "(", ⟨0, 1⟩⟩, ⟨.error, "\"ab", ⟨1, 3⟩⟩, ⟨.rpar, ")", ⟨3, 4⟩⟩]).2 =
      [⟨"unfinished string", ⟨1, 3⟩⟩] ∧
    (parse [⟨.lpar, "(", ⟨0, 1⟩⟩, ⟨.error, "\"ab", ⟨1, 3⟩⟩,
      ⟨.rpar, ")", ⟨3, 4⟩⟩]).1.hasErrorNode = false := by
  constructor
  · decide
  · decide

/-- C5, amended: only the top-level "Expected (" recovery wraps the
offending token in an `Error` node (this also applies to a malformed lexeme
at top level, which gets "Expected (" rather than "unfinished string").  A
malformed lexeme in expression position is appended as a plain `Error`-kind
leaf with an "unfinished string" entry only in the side error list, and
parsing continues with the next token (here the `)` is still consumed and
the whole input is retained in the tree). -/
theorem claim_C5_amended :
    ((parse [⟨.error, "\"ab", ⟨0, 3⟩⟩]).2 = [⟨"Expected (", ⟨0, 3⟩⟩] ∧
      (parse [⟨.error, "\"ab", ⟨0, 3⟩⟩]).1.hasErrorNode = true) ∧
    ((parse [⟨.lpar, "(", ⟨0, 1⟩⟩, ⟨.error, "\"ab", ⟨1, 3⟩⟩, ⟨.rpar, ")", ⟨3, 4⟩⟩]).2 =
        [⟨"unfinished string", ⟨1, 3⟩⟩] ∧
      Child.leaves (parse [⟨.lpar, "(", ⟨0, 1⟩⟩, ⟨.error, "\"ab", ⟨1, 3⟩⟩,
        ⟨.rpar, ")", ⟨3, 4⟩⟩]).1 =
        [⟨.lpar, "(", ⟨0, 1⟩⟩, ⟨.error, "\"ab", ⟨1, 3⟩⟩, ⟨.rpar, ")", ⟨3, 4⟩⟩]) := by
  refine ⟨⟨?_, ?_⟩, ?_, ?_⟩ <;> decide

/-- C6: for every input string, concatenating the text of every leaf token
of the returned tree, in tree order, reproduces the input exactly —
whitespace and comment tokens included (the leaves are exactly the lexed
tokens, in order, and lexing is lossless). -/
theorem claim_C6_roundtrip (s : String) (ts : List Tok) (h : lexes s ts) :
    String.join (((parse ts).1.leaves).map Tok.text) = s := by
  rw [parse_leaves_eq]
  exact h

/-- C6 witness: the round-trip theorem applied to the concrete input
`(a )`. -/
theorem claim_C6_roundtrip_witness :
    String.join (((parse [⟨.lpar, "(", ⟨0, 1⟩⟩, ⟨.identifier, "a", ⟨1, 2⟩⟩,
      ⟨.whitespace, " ", ⟨2, 3⟩⟩, ⟨.rpar, ")", ⟨3, 4⟩⟩]).1.leaves).map Tok.text) = "(a )" :=
  claim_C6_roundtrip "(a )"
    [⟨.lpar, "(", ⟨0, 1⟩⟩, ⟨.identifier, "a", ⟨1, 2⟩⟩,
      ⟨.whitespace, " ", ⟨2, 3⟩⟩, ⟨.rpar, ")", ⟨3, 4⟩⟩] (by rfl)

/-- C7: `parse` is total — it is a function defined on every token stream
(including the empty one and streams containing malformed lexemes), always
returning a tree rooted at a `Root` node together with an error list; on
empty input the error list is empty. -/
theorem claim_C7_total :
    (∀ ts : List Tok, kindOf (parse ts).1 = some NodeKind.root) ∧
    parse [] = (Child.node .root Span.empty Span.empty [], []) :=
  ⟨parse_root_kind, rfl⟩

/-! ## The incremental compilation engine (`src/env.rs`)

Data model.  The file registry, dependency graph, scope resolver, lowering,
filesystem and notification sink are external to the provided sources; each
is modelled from its consumed contract in the spec (§4.1, §6) and collected
into the `Ext` record of external capabilities.  Everything operating on
them is translated from `env.rs`. -/

/-- An opaque, arena-assigned file handle (`Id<id::File>`). -/
abbrev FileId := Nat

/-- A filesystem path (`PathBuf`); opaque to the engine. -/
abbrev Path := String

/-- Modelled from the spec (§6): the resolver's finished, span-indexed scope
snapshot; opaque to the engine, which only stores and returns it. -/
structure Scopes where
  data : List (Span × List String)

/-- `Scopes` starts out empty in a fresh file record. -/
def Scopes.empty : Scopes := ⟨[]⟩

/-- Modelled from the spec (§6): a `require` form carrying a quoted path
string. -/
structure Require where
  name : Spanned String

/-- Modelled from the spec (§6): a top-level form is a `require` or content
opaque to this core. -/
inductive TopLevelKind where
  | require (req : Require)
  | other

/-- Modelled from the spec (§6): the lowered abstract program — an ordered
list of top-level forms plus the program's span. -/
structure Program where
  span : Span
  vec : List (Spanned TopLevelKind)

/-- The empty program a fresh file record starts with. -/
def Program.empty : Program := ⟨Span.empty, []⟩

/-- `SyntaxNode::empty()`. -/
def emptyNode : Child := Child.node .root Span.empty Span.empty []

/-- Modelled from the spec (§3, `file.rs` is external): a file record.  The
Rust `imports` field is a `HashSet`; the model keeps it as a duplicate-free
list in first-insertion order, a deterministic stand-in for hash-set
iteration (all uses are membership tests, diffs and iteration). -/
structure File where
  source : String
  old_tree : Child
  new_tree : Child
  errors : List Error
  imports : List FileId
  ast : Program
  names : List (Spanned String)
  scopes : Scopes
  errored_tl : Finset Span

/-- `File::new(tree, source, errors)`: seed a record; the remaining fields
start empty. -/
def File.new (tree : Child) (source : String) (errors : List Error) : File :=
  { source := source, old_tree := emptyNode, new_tree := tree, errors := errors,
    imports := [], ast := Program.empty, names := [], scopes := Scopes.empty,
    errored_tl := ∅ }

/-- Modelled from the spec (§4.1, `storage.rs` is external): the arena of
file records; identifiers are assigned in order and never reused. -/
structure Storage where
  files : List (FileId × File)
  next : FileId

/-- The empty arena. -/
def Storage.empty : Storage := ⟨[], 0⟩

/-- `Storage::add`: insert a record under a fresh identifier. -/
def Storage.add (s : Storage) (f : File) : FileId × Storage :=
  (s.next, ⟨s.files ++ [(s.next, f)], s.next + 1⟩)

/-- `Storage::get` / `get_mut` (the read half). -/
def Storage.get (s : Storage) (id : FileId) : Option File :=
  (s.files.find? (fun p => p.1 == id)).map (fun p => p.2)

/-- The write half of `get_mut`: replace the record stored under `id`. -/
def Storage.set (s : Storage) (id : FileId) (f : File) : Storage :=
  ⟨s.files.map (fun p => if p.1 == id then (id, f) else p), s.next⟩

/-- Modelled from the spec (§4.1, `relation.rs` is external): the directed
graph of imports over file identifiers. -/
structure Relations where
  nodes : Finset FileId
  edges : Finset (FileId × FileId)

/-- The empty graph. -/
def Relations.emptyGraph : Relations := ⟨∅, ∅⟩

/-- `add_node`. -/
def Relations.add_node (r : Relations) (id : FileId) : Relations :=
  { r with nodes := insert id r.nodes }

/-- `connect(a, b)`: add the edge a → b ("a requires b"). -/
def Relations.connect (r : Relations) (a b : FileId) : Relations :=
  { r with edges := insert (a, b) r.edges }

/-- `remove_edge(a, b)`. -/
def Relations.remove_edge (r : Relations) (a b : FileId) : Relations :=
  { r with edges := r.edges.erase (a, b) }

/-- `get_dependents(x)`: the sources of edges into `x`. -/
def Relations.getDependents (r : Relations) (x : FileId) : Finset FileId :=
  (r.edges.filter (fun e => e.2 = x)).image (fun e => e.1)

/-- One expansion step of the affected closure: a set together with the
direct dependents of its members. -/
def Relations.affectedStep (r : Relations) (s : Finset FileId) : Finset FileId :=
  s ∪ s.biUnion r.getDependents

/-- `affected(seed)`: every seed plus everything transitively reachable
along depends-on-me edges (iterated to a fixed point; one step per possible
edge suffices). -/
def Relations.affected (r : Relations) (s : Finset FileId) : Finset FileId :=
  (fun t => r.affectedStep t)^[r.edges.card + 1] s

/-- The notifications of `env.rs` (`Event`). -/
inductive Event where
  | recompiled (id : FileId)
  | loaded (id : FileId)
  | log (msg : String)

/-- Modelled from the spec (§6): the engine's external capabilities — the
lexer behind `parse(&file.source)`, the filesystem behind `canonicalize` /
`exists`+`is_file` / `read_to_string`, the lowering `to_abstract`, the scope
resolver (`register_program`, giving the defined-name map, and
`check_program`, giving the unresolved-reference map and the finished scope
snapshot), and the notification sink's acceptance of the next send.  Each is
a pure function, matching the single-task model of §5. -/
structure Ext where
  lex : String → List Tok
  canonicalize : Path → Option Path
  isFile : Path → Bool
  readFile : Path → Option String
  toAbstract : Child → List Error × Program
  register : Span → FileId → Program → List (String × List (Spanned String))
  check : Span → FileId → Program → List (String × List (FileId × Spanned String)) →
    (List (String × List (Span × Spanned String)) × Scopes)
  sendOk : Nat → Bool

/-- The environment (`Env`): registry, graph, compile gate, path maps, open
set, and the stream of notifications delivered so far (the model of the
`event_sender` channel). -/
structure Env where
  file_storage : Storage
  created : Relations
  visited : Finset FileId
  uris : List (Path × FileId)
  files : List (FileId × Path)
  openFiles : Finset FileId
  events : List Event

/-- `Env::new`. -/
def Env.new : Env :=
  { file_storage := Storage.empty, created := Relations.emptyGraph, visited := ∅,
    uris := [], files := [], openFiles := ∅, events := [] }

/-- `add_file`: seed an empty record, register it in the graph and both path
maps. -/
def Env.add_file (env : Env) (path : Path) : FileId × Env :=
  let file := File.new emptyNode "" []
  let res := env.file_storage.add file
  let id := res.1
  (id, { env with
    file_storage := res.2,
    created := env.created.add_node id,
    uris := (path, id) :: env.uris,
    files := (id, path) :: env.files })

/-- `parse_file`: reparse an existing file — the previous tree moves to the
`old_tree` slot, the fresh tree and its syntax errors are installed.  `none`
models the Rust `None` for an unknown identifier (state untouched). -/
def Env.parse_file (ext : Ext) (env : Env) (id : FileId) : Env × Option Unit :=
  match env.file_storage.get id with
  | none => (env, none)
  | some file =>
    let pr := parse (ext.lex file.source)
    let file := { file with old_tree := file.new_tree, new_tree := pr.1, errors := pr.2 }
    ({ env with file_storage := env.file_storage.set id file }, some ())

/-- `apply_edits`: apply each replacement against the text as it stands at
that moment (spans are offsets here; `to_offset` is clamped to the text). -/
def Env.apply_edits (env : Env) (id : FileId) (edits : List (Spanned String)) :
    Env × Option Unit :=
  match env.file_storage.get id with
  | none => (env, none)
  | some file =>
    let newSource := edits.foldl (fun src e =>
      let start := min e.span.start src.length
      let stop := min e.span.stop src.length
      (src.take start) ++ e.data ++ (src.drop stop)) file.source
    ({ env with file_storage := env.file_storage.set id { file with source := newSource } },
      some ())

/-- `update_file`: overwrite the stored source text.  The Rust code unwraps
`get_mut`; callers only pass identifiers present in the registry, so the
`none` branch is unreachable. -/
def Env.update_file (env : Env) (id : FileId) (source : String) : Env :=
  match env.file_storage.get id with
  | none => env
  | some file =>
    { env with file_storage := env.file_storage.set id { file with source := source } }

/-- `ensure_file`: canonicalize, and either return the known identifier for
that path untouched, or create-and-seed a fresh record.  The Rust code calls
`.unwrap()` on canonicalization, panicking when it fails; `none` models that
panic. -/
def Env.ensure_file (ext : Ext) (env : Env) (path : Path) (source : String) :
    Option (FileId × Env) :=
  match ext.canonicalize path with
  | none => none
  | some cpath =>
    match env.uris.find? (fun p => p.1 == cpath) with
    | some p => some (p.2, env)
    | none =>
      let res := env.add_file cpath
      some (res.1, (res.2).update_file res.1 source)

/-- `precompile`: reparse (result ignored), lower the fresh tree, append the
lowering diagnostics, and return the program together with the *previous*
set of imports. -/
def Env.precompile (ext : Ext) (env : Env) (id : FileId) :
    Env × Option (Program × List FileId) :=
  let env := (env.parse_file ext id).1
  match env.file_storage.get id with
  | none => (env, none)
  | some file =>
    let res := ext.toAbstract file.new_tree
    let upd := { file with errors := file.errors ++ res.1 }
    ({ env with file_storage := env.file_storage.set id upd }, some (res.2, file.imports))

/-- `process_import_path`: when the resolved path is an existing regular
file, read it and obtain its identifier via `ensure_file` (called on the
original, un-resolved path, as in the source). -/
def Env.process_import_path (ext : Ext) (env : Env) (resolved original : Path) :
    Env × Option FileId :=
  if ext.isFile resolved then
    match ext.readFile resolved with
    | none => (env, none)
    | some source =>
      match env.ensure_file ext original source with
      | some r => (r.2, some r.1)
      | none => (env, none)
  else (env, none)

/-- `process_required`: strip the quotes from the require's string literal,
canonicalize, and resolve; unresolvable imports are silently dropped. -/
def Env.process_required (ext : Ext) (env : Env) (req : Require) : Env × Option FileId :=
  let path_str := (req.name.data.drop 1).dropRight 1
  match ext.canonicalize path_str with
  | some resolved => env.process_import_path ext resolved path_str
  | none => (env, none)

/-- `process_imports`: collect the identifiers of every resolvable `require`
of the program — the new import set (a `HashSet` insert is a no-op on a
present element). -/
def Env.process_imports (ext : Ext) (env : Env) (program : Program) :
    Env × List FileId :=
  program.vec.foldl (fun acc tl =>
    match tl.data with
    | .require req =>
      let r := acc.1.process_required ext req
      match r.2 with
      | some id => (r.1, if acc.2.contains id then acc.2 else acc.2 ++ [id])
      | none => (r.1, acc.2)
    | .other => acc) (env, [])

/-- `update_relations`: remove the edge for every import in the old set but
not the new, add the edge for every import in the new set but not the old,
and return all touched targets (the symmetric difference). -/
def Env.update_relations (env : Env) (id : FileId)
    (old_imports new_imports : List FileId) : Env × List FileId :=
  let removed := old_imports.filter (fun x => !(new_imports.contains x))
  let added := new_imports.filter (fun x => !(old_imports.contains x))
  let created := removed.foldl (fun r x => r.remove_edge id x) env.created
  let created := added.foldl (fun r x => r.connect id x) created
  ({ env with created := created }, removed ++ added)

/-- `update_file_imports`: store the new import set and lowered program on
the record (unwrap in Rust; the identifier was just read in `precompile`). -/
def Env.update_file_imports (env : Env) (id : FileId) (new_imports : List FileId)
    (program : Program) : Env :=
  match env.file_storage.get id with
  | none => env
  | some file =>
    let file := { file with imports := new_imports, ast := program }
    { env with file_storage := env.file_storage.set id file }

/-- The `tracker.imported.entry(name).or_default().push(v)` step of
`update_file_errors`, on an association list. -/
def pushImported (m : List (String × List (FileId × Spanned String))) (key : String)
    (v : FileId × Spanned String) : List (String × List (FileId × Spanned String)) :=
  match m with
  | [] => [(key, [v])]
  | (k, vs) :: rest =>
    if k = key then (k, vs ++ [v]) :: rest else (k, vs) :: pushImported rest key v

/-- The imported-name map of `update_file_errors`: every imported file's
exported name occurrences, keyed by name. -/
def buildImported (env : Env) (imps : List FileId) :
    List (String × List (FileId × Spanned String)) :=
  imps.foldl (fun m id =>
    match env.file_storage.get id with
    | none => m
    | some file => file.names.foldl (fun m name => pushImported m name.data (id, name)) m) []

/-- One entry of the duplicate-detection pass of `update_file_errors`: a
name with several occurrences flags and reports every occurrence; a name
with a single occurrence has its span recorded *unconditionally* and is
reported only when it collides with an imported name.  An empty occurrence
list would make the Rust code panic on `occs[0]`; the resolver never
produces one, and the model skips it. -/
def dupStep (imported : List (String × List (FileId × Spanned String)))
    (acc : Finset Span × List Error) (entry : String × List (Spanned String)) :
    Finset Span × List Error :=
  let occs := entry.2
  if 1 < occs.length then
    (occs.foldl (fun s occ => insert occ.span s) acc.1,
      acc.2 ++ occs.map (fun occ => Error.new "duplicated function." occ.span))
  else
    match occs with
    | [] => acc
    | occ :: _ =>
      let s := insert occ.span acc.1
      if (imported.find? (fun p => p.1 == occ.data)).isSome then
        (s, acc.2 ++ [Error.new "duplicated function." occ.span])
      else (s, acc.2)

/-- The duplicate-detection pass over the whole defined map. -/
def dupErrored (defined : List (String × List (Spanned String)))
    (imported : List (String × List (FileId × Spanned String))) :
    Finset Span × List Error :=
  defined.foldl (dupStep imported) (∅, [])

/-- One entry of the unresolved-reference pass of `update_file_errors`:
record each instance's carried span as errored and report "cannot find
variable" at the reference's own span. -/
def unboundStep (acc : Finset Span × List Error)
    (entry : String × List (Span × Spanned String)) : Finset Span × List Error :=
  entry.2.foldl (fun acc inst =>
    (insert inst.1 acc.1,
      acc.2 ++ [Error.new ("cannot find variable `" ++ inst.2.data ++ "`.") inst.2.span]))
    acc

/-- The unresolved-reference pass over the whole unbound map. -/
def unboundErrored (unbound : List (String × List (Span × Spanned String))) :
    Finset Span × List Error :=
  unbound.foldl unboundStep (∅, [])

/-- `update_file_errors` (the binding-resolution pass): build the resolver
over the stored program, merge in every imported file's exported names, run
duplicate detection and the reference check, replace the exported name set
and scope snapshot, append the new binding diagnostics to the existing error
list, and replace the errored-top-level span set. -/
def Env.update_file_errors (ext : Ext) (env : Env) (id : FileId) : Env :=
  match env.file_storage.get id with
  | none => env
  | some file =>
    let imps := file.imports
    let defined := ext.register file.ast.span id file.ast
    let imported := buildImported env imps
    let dup := dupErrored defined imported
    let chk := ext.check file.ast.span id file.ast imported
    let ub := unboundErrored chk.1
    let file := { file with
      errors := file.errors ++ dup.2 ++ ub.2,
      names := ((defined.map (fun e => e.2)).flatten).dedup,
      scopes := chk.2,
      errored_tl := dup.1 ∪ ub.1 }
    { env with file_storage := env.file_storage.set id file }

/-- The body of one iteration of `compile`'s worklist loop, for a file not
yet processed in this call: precompile, resolve the new imports, store them,
diff the relations, extend the to-update set with the file and its current
dependents, and push the changed identifiers onto the stack. -/
def Env.compileStep (ext : Ext) (env : Env) (current : FileId) (stack : List FileId)
    (to_update : Finset FileId) : Env × Option (List FileId × Finset FileId) :=
  let pre := env.precompile ext current
  match pre.2 with
  | none => (pre.1, none)
  | some pr =>
    let program := pr.1
    let imports := pr.2
    let pi := Env.process_imports ext pre.1 program
    let env := Env.update_file_imports pi.1 current pi.2 program
    let ur := env.update_relations current imports pi.2
    let to_update := insert current to_update
    let to_update := to_update ∪ (ur.1).created.getDependents current
    (ur.1, some (stack ++ ur.2, to_update))

/-- `compile`'s worklist loop: pop from the end of the stack (a Rust `Vec`),
skip already-processed files, and run `compileStep` otherwise.  Fuel stands
for the meta-level fact that the loop visits finitely many files; `none` on
exhaustion, like the propagated `None` of a missing record. -/
def compileLoop (ext : Ext) : Nat → Env → List FileId → Finset FileId → Finset FileId →
    Env × Option (Finset FileId)
  | 0, env, _, _, _ => (env, none)
  | fuel + 1, env, stack, visited, to_update =>
    match stack.getLast? with
    | none => (env, some to_update)
    | some current =>
      let rest := stack.dropLast
      if current ∈ visited then compileLoop ext fuel env rest visited to_update
      else
        let step := env.compileStep ext current rest to_update
        match step.2 with
        | none => (step.1, none)
        | some r => compileLoop ext fuel step.1 r.1 (insert current visited) r.2

/-- `event_sender.send(...).ok()?`: deliver one notification, or fail if the
sink is closed. -/
def Env.send (ext : Ext) (env : Env) (e : Event) : Env × Option Unit :=
  if ext.sendOk env.events.length then
    ({ env with events := env.events ++ [e] }, some ())
  else (env, none)

/-- The diagnostic-refresh phase of `compile`: for each file in the batch,
recompute binding diagnostics and emit `Recompiled`; a failed send aborts
the rest of the batch. -/
def notifyLoop (ext : Ext) (env : Env) : List FileId → Env × Option Unit
  | [] => (env, some ())
  | f :: rest =>
    let env := Env.update_file_errors ext env f
    let s := env.send ext (Event.recompiled f)
    match s.2 with
    | none => (s.1, none)
    | some _ => notifyLoop ext s.1 rest

/-- `compile(root)`: gate on `visited`, mark the root visited, run the
worklist loop, expand the batch through the affected closure, and refresh
diagnostics with one notification per file. -/
def Env.compile (ext : Ext) (fuel : Nat) (env : Env) (id : FileId) : Env × Option Unit :=
  if id ∈ env.visited then (env, none)
  else
    let env := { env with visited := insert id env.visited }
    let lp := compileLoop ext fuel env [id] ∅ ∅
    match lp.2 with
    | none => (lp.1, none)
    | some to_update =>
      let batch := ((lp.1).created.affected to_update).sort (fun a b => a ≤ b)
      notifyLoop ext lp.1 batch

/-! ## Claims about the engine: `ensure_file` (C8, C9) -/

theorem find_set_list (l : List (FileId × File)) (id : FileId) (f : File)
    (h : (l.find? (fun p => p.1 == id)).isSome) :
    (l.map (fun p => if p.1 == id then (id, f) else p)).find? (fun p => p.1 == id) =
      some (id, f) := by
  induction l with
  | nil => simp at h
  | cons e rest ih =>
    simp only [List.map_cons]
    by_cases he : e.1 = id
    · rw [if_pos (by simp [he])]
      rw [List.find?_cons_of_pos _ (by simp)]
    · rw [if_neg (by simp [he])]
      rw [List.find?_cons_of_neg _ (by simp [he])]
      apply ih
      rw [List.find?_cons_of_neg _ (by simp [he])] at h
      exact h

theorem Storage.get_set (s : Storage) (id : FileId) (f g : File)
    (h : s.get id = some g) : (s.set id f).get id = some f := by
  unfold Storage.get Storage.set at *
  have hs : ((s.files.find? (fun p => p.1 == id)).isSome) := by
    cases hf : s.files.find? (fun p => p.1 == id) with
    | none => rw [hf] at h; simp at h
    | some q => simp
  rw [find_set_list s.files id f hs]
  rfl

theorem Env.update_file_uris (env : Env) (id : FileId) (s : String) :
    (env.update_file id s).uris = env.uris := by
  unfold Env.update_file
  cases env.file_storage.get id <;> rfl

/-- C8: `ensure_file` is idempotent on the canonicalized path — a repeated
call with the same path, whatever its new `source` argument, returns the
same identifier and leaves the whole environment (records, maps, graph)
exactly as the first call left it. -/
theorem claim_C8_idempotent (ext : Ext) (env : Env) (p : Path) (s1 s2 : String)
    (id : FileId) (env1 : Env) (h : env.ensure_file ext p s1 = some (id, env1)) :
    env1.ensure_file ext p s2 = some (id, env1) := by
  unfold Env.ensure_file at h ⊢
  cases hc : ext.canonicalize p with
  | none => rw [hc] at h; simp at h
  | some c =>
    simp only [hc] at h ⊢
    cases hf : env.uris.find? (fun q => q.1 == c) with
    | some q =>
      simp only [hf, Option.some.injEq, Prod.mk.injEq] at h
      obtain ⟨hid, henv⟩ := h
      subst henv
      simp [hf, hid]
    | none =>
      simp only [hf, Option.some.injEq, Prod.mk.injEq] at h
      obtain ⟨hid, henv⟩ := h
      have huris : env1.uris = (c, (env.add_file c).1) :: env.uris := by
        rw [← henv, Env.update_file_uris]
        simp [Env.add_file]
      have hfind : env1.uris.find? (fun q => q.1 == c) = some (c, (env.add_file c).1) := by
        rw [huris]
        rw [List.find?_cons_of_pos _ (by simp)]
      simp [hfind, hid]

/-- A filesystem oracle whose canonicalization always fails (no path
exists); the remaining capabilities are inert. -/
def extNone : Ext :=
  ⟨fun _ => [], fun _ => none, fun _ => false, fun _ => none,
    fun _ => ([], Program.empty), fun _ _ _ => [],
    fun _ _ _ _ => ([], Scopes.empty), fun _ => true⟩

/-- A filesystem oracle whose canonicalization is the identity (every path
exists, already canonical); files read as empty, nothing else resolves. -/
def extId : Ext :=
  ⟨fun _ => [], fun p => some p, fun _ => false, fun _ => none,
    fun _ => ([], Program.empty), fun _ _ _ => [],
    fun _ _ _ _ => ([], Scopes.empty), fun _ => true⟩

/-- The environment after a first `ensure_file` of path `a.fly`. -/
def env8 : Env :=
  match Env.ensure_file extId Env.new "a.fly" "x" with
  | some r => r.2
  | none => Env.new

/-- C8 witness: re-ensuring `a.fly` with different sources returns the first
identifier and the unchanged environment. -/
theorem claim_C8_idempotent_witness :
    Env.ensure_file extId env8 "a.fly" "y" = some (0, env8) :=
  claim_C8_idempotent extId Env.new "a.fly" "x" "y" 0 env8 (by rfl)

/-- C9: `ensure_file` is not total — when the path cannot be canonicalized
the Rust code panics on `.unwrap()` rather than returning an identifier or
an error value; the model renders that panic as `none`, produced before any
state is touched. -/
theorem claim_C9_panic (ext : Ext) (env : Env) (p : Path) (s : String)
    (h : ext.canonicalize p = none) : env.ensure_file ext p s = none := by
  unfold Env.ensure_file
  rw [h]

/-- C9 witness: under a filesystem with no canonicalizable paths,
`ensure_file` reaches the panic (modelled `none`). -/
theorem claim_C9_panic_witness : Env.ensure_file extNone Env.new "missing.fly" "x" = none :=
  claim_C9_panic extNone Env.new "missing.fly" "x" rfl

/-! ## Claims about the engine: the `compile` gate (C2)

`self.visited` is written at exactly one place in `env.rs` — the insertion
at the top of `compile` — so it can only grow; the lemmas below trace that
through every operation. -/

theorem Env.add_file_visited (env : Env) (p : Path) :
    ((env.add_file p).2).visited = env.visited := rfl

theorem Env.update_file_visited (env : Env) (id : FileId) (s : String) :
    (env.update_file id s).visited = env.visited := by
  unfold Env.update_file
  cases env.file_storage.get id <;> rfl

theorem Env.parse_file_visited (ext : Ext) (env : Env) (id : FileId) :
    ((env.parse_file ext id).1).visited = env.visited := by
  unfold Env.parse_file
  cases env.file_storage.get id <;> rfl

theorem Env.apply_edits_visited (env : Env) (id : FileId) (edits : List (Spanned String)) :
    ((env.apply_edits id edits).1).visited = env.visited := by
  unfold Env.apply_edits
  cases env.file_storage.get id <;> rfl

theorem Env.ensure_file_visited (ext : Ext) (env : Env) (p : Path) (s : String)
    (r : FileId × Env) (h : env.ensure_file ext p s = some r) :
    r.2.visited = env.visited := by
  unfold Env.ensure_file at h
  cases hc : ext.canonicalize p with
  | none => rw [hc] at h; simp at h
  | some c =>
    simp only [hc] at h
    cases hf : env.uris.find? (fun q => q.1 == c) with
    | some q =>
      simp only [hf, Option.some.injEq] at h
      rw [← h]
    | none =>
      simp only [hf, Option.some.injEq] at h
      rw [← h]
      simp [Env.update_file_visited, Env.add_file_visited]

theorem Env.process_import_path_visited (ext : Ext) (env : Env) (a b : Path) :
    ((env.process_import_path ext a b).1).visited = env.visited := by
  by_cases hf : ext.isFile a = true
  · cases hr : ext.readFile a with
    | none => simp [Env.process_import_path, hf, hr]
    | some s =>
      cases he : env.ensure_file ext b s with
      | none => simp [Env.process_import_path, hf, hr, he]
      | some r =>
        simp only [Env.process_import_path, hf, hr, he, if_true]
        exact Env.ensure_file_visited ext env b s r he
  · simp [Env.process_import_path, hf]

theorem Env.process_required_visited (ext : Ext) (env : Env) (req : Require) :
    ((env.process_required ext req).1).visited = env.visited := by
  cases hc : ext.canonicalize ((req.name.data.drop 1).dropRight 1) with
  | none => simp [Env.process_required, hc]
  | some resolved =>
    simp only [Env.process_required, hc]
    exact Env.process_import_path_visited ext env resolved _

theorem Env.process_imports_visited (ext : Ext) (env : Env) (program : Program) :
    ((Env.process_imports ext env program).1).visited = env.visited := by
  unfold Env.process_imports
  suffices key : ∀ (l : List (Spanned TopLevelKind)) (acc : Env × List FileId),
      ((l.foldl (fun acc tl =>
        match tl.data with
        | .require req =>
          let r := acc.1.process_required ext req
          match r.2 with
          | some id => (r.1, if acc.2.contains id then acc.2 else acc.2 ++ [id])
          | none => (r.1, acc.2)
        | .other => acc) acc).1).visited = acc.1.visited by
    exact key program.vec (env, [])
  intro l
  induction l with
  | nil => intro acc; rfl
  | cons tl rest ih =>
    intro acc
    rw [List.foldl_cons]
    cases htl : tl.data with
    | other => exact ih acc
    | require req =>
      cases hr : (acc.1.process_required ext req).2 with
      | some id =>
        rw [ih _]
        simp only [hr]
        exact Env.process_required_visited ext acc.1 req
      | none =>
        rw [ih _]
        simp only [hr]
        exact Env.process_required_visited ext acc.1 req

theorem Env.precompile_visited (ext : Ext) (env : Env) (id : FileId) :
    ((env.precompile ext id).1).visited = env.visited := by
  simp only [Env.precompile]
  cases hg : ((env.parse_file ext id).1).file_storage.get id with
  | none => exact Env.parse_file_visited ext env id
  | some file => exact Env.parse_file_visited ext env id

theorem Env.update_file_imports_visited (env : Env) (id : FileId) (n : List FileId)
    (p : Program) : (env.update_file_imports id n p).visited = env.visited := by
  unfold Env.update_file_imports
  cases env.file_storage.get id <;> rfl

theorem Env.update_relations_visited (env : Env) (id : FileId) (a b : List FileId) :
    ((env.update_relations id a b).1).visited = env.visited := rfl

theorem Env.update_file_errors_visited (ext : Ext) (env : Env) (id : FileId) :
    (env.update_file_errors ext id).visited = env.visited := by
  unfold Env.update_file_errors
  cases env.file_storage.get id <;> rfl

theorem Env.compileStep_visited (ext : Ext) (env : Env) (current : FileId)
    (stack : List FileId) (tu : Finset FileId) :
    ((env.compileStep ext current stack tu).1).visited = env.visited := by
  simp only [Env.compileStep]
  cases hp : (env.precompile ext current).2 with
  | none => exact Env.precompile_visited ext env current
  | some pr =>
    exact (Env.update_relations_visited _ current pr.2 _).trans
      ((Env.update_file_imports_visited _ current _ pr.1).trans
        ((Env.process_imports_visited ext _ pr.1).trans (Env.precompile_visited ext env current)))

theorem compileLoop_visitedEnv (ext : Ext) (fuel : Nat) :
    ∀ (env : Env) (stack : List FileId) (v tu : Finset FileId),
    ((compileLoop ext fuel env stack v tu).1).visited = env.visited := by
  induction fuel with
  | zero => intro env stack v tu; rfl
  | succ g ih =>
    intro env stack v tu
    cases hs : stack.getLast? with
    | none => simp [compileLoop, hs]
    | some current =>
      by_cases hv : current ∈ v
      · simp only [compileLoop, hs, hv, if_true]
        exact ih env _ v tu
      · simp only [compileLoop, hs, hv, if_false]
        cases hstep : (env.compileStep ext current stack.dropLast tu).2 with
        | none => exact Env.compileStep_visited ext env current _ tu
        | some r =>
          simp only [hstep]
          exact (ih _ _ _ _).trans (Env.compileStep_visited ext env current _ tu)

theorem Env.send_visited (ext : Ext) (env : Env) (e : Event) :
    ((env.send ext e).1).visited = env.visited := by
  unfold Env.send
  by_cases h : ext.sendOk env.events.length <;> simp [h]

theorem notifyLoop_visited (ext : Ext) :
    ∀ (batch : List FileId) (env : Env),
    ((notifyLoop ext env batch).1).visited = env.visited := by
  intro batch
  induction batch with
  | nil => intro env; rfl
  | cons f rest ih =>
    intro env
    simp only [notifyLoop]
    cases hs : ((Env.update_file_errors ext env f).send ext (Event.recompiled f)).2 with
    | none =>
      simp only [hs]
      exact (Env.send_visited ext _ _).trans (Env.update_file_errors_visited ext env f)
    | some u =>
      simp only [hs]
      exact (ih _).trans
        ((Env.send_visited ext _ _).trans (Env.update_file_errors_visited ext env f))

theorem Env.compile_visited (ext : Ext) (fuel : Nat) (env : Env) (id : FileId) :
    ((env.compile ext fuel id).1).visited = insert id env.visited := by
  by_cases h : id ∈ env.visited
  · simp only [Env.compile, h, if_true]
    exact (Finset.insert_eq_self.mpr h).symm
  · simp only [Env.compile, h, if_false]
    cases hl : (compileLoop ext fuel { env with visited := insert id env.visited }
        [id] ∅ ∅).2 with
    | none =>
      simp only [hl]
      exact compileLoop_visitedEnv ext fuel _ _ _ _
    | some tu =>
      simp only [hl]
      exact (notifyLoop_visited ext _ _).trans (compileLoop_visitedEnv ext fuel _ _ _ _)

/-- C2: the `compile` gate.  (i) When the root has ever been compiled the
call is a no-op: it returns immediately with the environment — every file
record, path map, dependency edge and the notification stream — exactly
unchanged.  (ii) Any `compile` call leaves its root marked visited.
(iii) The mark survives later `compile` calls with any root, and (iv–vii)
`parse_file`, `apply_edits`, `ensure_file` and `update_file` never touch the
mark, so the gate holds for the remaining life of the engine. -/
theorem claim_C2_gate :
    (∀ (ext : Ext) (fuel : Nat) (env : Env) (id : FileId), id ∈ env.visited →
      env.compile ext fuel id = (env, none)) ∧
    (∀ (ext : Ext) (fuel : Nat) (env : Env) (id : FileId),
      id ∈ ((env.compile ext fuel id).1).visited) ∧
    (∀ (ext : Ext) (fuel : Nat) (env : Env) (id j : FileId), id ∈ env.visited →
      id ∈ ((env.compile ext fuel j).1).visited) ∧
    (∀ (ext : Ext) (env : Env) (id : FileId),
      ((env.parse_file ext id).1).visited = env.visited) ∧
    (∀ (env : Env) (id : FileId) (edits : List (Spanned String)),
      ((env.apply_edits id edits).1).visited = env.visited) ∧
    (∀ (ext : Ext) (env : Env) (p : Path) (s : String) (r : FileId × Env),
      env.ensure_file ext p s = some r → r.2.visited = env.visited) ∧
    (∀ (env : Env) (id : FileId) (s : String),
      (env.update_file id s).visited = env.visited) := by
  refine ⟨?_, ?_, ?_, Env.parse_file_visited, Env.apply_edits_visited,
    Env.ensure_file_visited, Env.update_file_visited⟩
  · intro ext fuel env id h
    simp [Env.compile, h]
  · intro ext fuel env id
    rw [Env.compile_visited]
    exact Finset.mem_insert_self id env.visited
  · intro ext fuel env id j h
    rw [Env.compile_visited]
    exact Finset.mem_insert_of_mem h

/-- An environment on which file 0 was already the root of a compile. -/
def envGate : Env := { Env.new with visited := {0} }

/-- C2 witness: a second `compile` of root 0 is a no-op returning the
environment unchanged. -/
theorem claim_C2_gate_witness : Env.compile extId 5 envGate 0 = (envGate, none) :=
  claim_C2_gate.1 extId 5 envGate 0 (by decide)

/-! ## Claims about the engine: import diffing (C3) -/

theorem edges_after_removes (id : FileId) (L : List FileId) :
    ∀ (r : Relations) (e : FileId × FileId),
    (e ∈ (L.foldl (fun r x => r.remove_edge id x) r).edges ↔
      e ∈ r.edges ∧ ¬(e.1 = id ∧ e.2 ∈ L)) := by
  induction L with
  | nil => intro r e; simp
  | cons x xs ih =>
    intro r e
    rw [List.foldl_cons]
    rw [ih (r.remove_edge id x) e]
    unfold Relations.remove_edge
    simp only [Finset.mem_erase]
    constructor
    · rintro ⟨⟨hne, he⟩, hnot⟩
      refine ⟨he, ?_⟩
      rintro ⟨h1, h2⟩
      rcases List.mem_cons.mp h2 with h2 | h2
      · exact hne (Prod.ext h1 h2)
      · exact hnot ⟨h1, h2⟩
    · rintro ⟨he, hnot⟩
      refine ⟨⟨?_, he⟩, ?_⟩
      · intro hx
        exact hnot ⟨congrArg Prod.fst hx, by rw [congrArg Prod.snd hx]; exact List.mem_cons_self x xs⟩
      · rintro ⟨h1, h2⟩
        exact hnot ⟨h1, List.mem_cons_of_mem x h2⟩

theorem edges_after_adds (id : FileId) (L : List FileId) :
    ∀ (r : Relations) (e : FileId × FileId),
    (e ∈ (L.foldl (fun r x => r.connect id x) r).edges ↔
      e ∈ r.edges ∨ (e.1 = id ∧ e.2 ∈ L)) := by
  induction L with
  | nil => intro r e; simp
  | cons x xs ih =>
    intro r e
    rw [List.foldl_cons]
    rw [ih (r.connect id x) e]
    unfold Relations.connect
    simp only [Finset.mem_insert]
    constructor
    · rintro ((h | h) | h)
      · right
        refine ⟨congrArg Prod.fst h, ?_⟩
        rw [congrArg Prod.snd h]
        exact List.mem_cons_self x xs
      · exact Or.inl h
      · exact Or.inr ⟨h.1, List.mem_cons_of_mem x h.2⟩
    · rintro (h | ⟨h1, h2⟩)
      · exact Or.inl (Or.inr h)
      · rcases List.mem_cons.mp h2 with h2 | h2
        · left; left
          obtain ⟨a, b⟩ := e
          simp only at h1 h2
          rw [h1, h2]
        · exact Or.inr ⟨h1, h2⟩

/-- Membership in the removed/added filters. -/
theorem mem_diff_filter (L M : List FileId) (x : FileId) :
    (x ∈ L.filter (fun y => !(M.contains y)) ↔ x ∈ L ∧ x ∉ M) := by
  simp [List.mem_filter]

/-- The characterization of the edge set after `update_relations`. -/
theorem update_relations_edges (env : Env) (id : FileId) (P N : List FileId)
    (a b : FileId) :
    ((a, b) ∈ (((env.update_relations id P N).1).created).edges ↔
      ((a, b) ∈ env.created.edges ∧ ¬(a = id ∧ b ∈ P ∧ b ∉ N)) ∨
        (a = id ∧ b ∈ N ∧ b ∉ P)) := by
  unfold Env.update_relations
  rw [edges_after_adds id (N.filter (fun y => !(P.contains y))) _ (a, b)]
  rw [edges_after_removes id (P.filter (fun y => !(N.contains y))) _ (a, b)]
  simp [List.mem_filter]

/-- C3: the import diff.  For previous import set `P` and new import set
`N`: the returned changed set — which `compile` pushes onto the work stack —
holds exactly the symmetric difference of `P` and `N`; every edge to a
removed import is deleted; every edge to an added import is created; every
other edge (in particular an edge to an import in both `P` and `N`) is
untouched.  The last conjunct shows `compileStep` extending the work stack
with exactly the changed set returned by `update_relations`. -/
theorem claim_C3_import_diff :
    (∀ (env : Env) (id : FileId) (P N : List FileId) (x : FileId),
      (x ∈ (env.update_relations id P N).2 ↔ ((x ∈ P ∧ x ∉ N) ∨ (x ∈ N ∧ x ∉ P)))) ∧
    (∀ (env : Env) (id : FileId) (P N : List FileId) (x : FileId), x ∈ P → x ∉ N →
      (id, x) ∉ (((env.update_relations id P N).1).created).edges) ∧
    (∀ (env : Env) (id : FileId) (P N : List FileId) (x : FileId), x ∈ N → x ∉ P →
      (id, x) ∈ (((env.update_relations id P N).1).created).edges) ∧
    (∀ (env : Env) (id : FileId) (P N : List FileId) (a b : FileId),
      ¬(a = id ∧ ((b ∈ P ∧ b ∉ N) ∨ (b ∈ N ∧ b ∉ P))) →
      ((a, b) ∈ (((env.update_relations id P N).1).created).edges ↔
        (a, b) ∈ env.created.edges)) ∧
    (∀ (ext : Ext) (env : Env) (current : FileId) (stack : List FileId)
      (tu : Finset FileId) (program : Program) (P : List FileId),
      (env.precompile ext current).2 = some (program, P) →
      ((env.compileStep ext current stack tu).2).map (fun r => r.1) =
        some (stack ++ (env.update_relations current P
          (Env.process_imports ext (env.precompile ext current).1 program).2).2)) := by
  refine ⟨?_, ?_, ?_, ?_, ?_⟩
  · intro env id P N x
    show (x ∈ P.filter (fun y => !(N.contains y)) ++ N.filter (fun y => !(P.contains y)) ↔ _)
    rw [List.mem_append, mem_diff_filter, mem_diff_filter]
  · intro env id P N x hxP hxN
    rw [update_relations_edges]
    rintro (⟨_, hno⟩ | ⟨_, _, hin⟩)
    · exact hno ⟨rfl, hxP, hxN⟩
    · exact hin hxP
  · intro env id P N x hxN hxP
    rw [update_relations_edges]
    exact Or.inr ⟨rfl, hxN, hxP⟩
  · intro env id P N a b hnot
    rw [update_relations_edges]
    constructor
    · rintro (⟨he, _⟩ | ⟨h1, h2, h3⟩)
      · exact he
      · exact absurd ⟨h1, Or.inr ⟨h2, h3⟩⟩ hnot
    · intro he
      refine Or.inl ⟨he, ?_⟩
      rintro ⟨h1, h2, h3⟩
      exact hnot ⟨h1, Or.inl ⟨h2, h3⟩⟩
  · intro ext env current stack tu program P hpre
    simp only [Env.compileStep, hpre]
    rfl

/-- An environment with files 0–3 and the prior edges 0→1 and 0→2. -/
def envC3 : Env :=
  { Env.new with
    created := ⟨{0, 1, 2, 3}, {(0, 1), (0, 2)}⟩ }

/-- C3 witness: diffing previous imports `[1, 2]` against new imports
`[2, 3]` on file 0 pushes exactly 1 and 3 (and not 2), removes edge 0→1,
adds edge 0→3, and leaves edge 0→2 untouched. -/
theorem claim_C3_import_diff_witness :
    ((1 : FileId) ∈ (envC3.update_relations 0 [1, 2] [2, 3]).2 ∧
      (3 : FileId) ∈ (envC3.update_relations 0 [1, 2] [2, 3]).2 ∧
      (2 : FileId) ∉ (envC3.update_relations 0 [1, 2] [2, 3]).2) ∧
    (0, 1) ∉ (((envC3.update_relations 0 [1, 2] [2, 3]).1).created).edges ∧
    (0, 3) ∈ (((envC3.update_relations 0 [1, 2] [2, 3]).1).created).edges ∧
    ((0, 2) ∈ (((envC3.update_relations 0 [1, 2] [2, 3]).1).created).edges ↔
      (0, 2) ∈ envC3.created.edges) :=
  ⟨⟨(claim_C3_import_diff.1 envC3 0 [1, 2] [2, 3] 1).mpr (by decide),
      (claim_C3_import_diff.1 envC3 0 [1, 2] [2, 3] 3).mpr (by decide),
      fun hmem => by
        have h2 := (claim_C3_import_diff.1 envC3 0 [1, 2] [2, 3] 2).mp hmem
        revert h2
        decide⟩,
    claim_C3_import_diff.2.1 envC3 0 [1, 2] [2, 3] 1 (by decide) (by decide),
    claim_C3_import_diff.2.2.1 envC3 0 [1, 2] [2, 3] 3 (by decide) (by decide),
    claim_C3_import_diff.2.2.2.1 envC3 0 [1, 2] [2, 3] 0 2 (by decide)⟩

/-! ## Claims about the engine: the errored-top-level set (C1) and error
accumulation (C10) -/

/-- The spans of every occurrence of every locally defined name. -/
def definedSpans (defined : List (String × List (Spanned String))) : Finset Span :=
  defined.foldl (fun acc e => e.2.foldl (fun s occ => insert occ.span s) acc) ∅

/-- The first-component spans carried by the unbound map (the spans the code
inserts into the errored set, one per unresolved reference). -/
def unboundOnSpans (unbound : List (String × List (Span × Spanned String))) : Finset Span :=
  unbound.foldl (fun acc e => e.2.foldl (fun s i => insert i.1 s) acc) ∅

/-- The errored-top-level set exactly as claim C1 words it: occurrences of
multiply-defined names, single occurrences that collide with an import, and
the unresolved references' own spans — and nothing else. -/
def claimedErrored (defined : List (String × List (Spanned String)))
    (imported : List (String × List (FileId × Spanned String)))
    (unbound : List (String × List (Span × Spanned String))) : Finset Span :=
  defined.foldl (fun acc entry =>
    if 1 < entry.2.length then entry.2.foldl (fun s occ => insert occ.span s) acc
    else
      match entry.2 with
      | [] => acc
      | occ :: _ =>
        if (imported.find? (fun p => p.1 == occ.data)).isSome then insert occ.span acc
        else acc) ∅
  ∪ unbound.foldl (fun acc e => e.2.foldl (fun s i => insert i.2.span s) acc) ∅

theorem dupStep_fst (imported : List (String × List (FileId × Spanned String)))
    (acc : Finset Span × List Error) (entry : String × List (Spanned String)) :
    (dupStep imported acc entry).1 =
      entry.2.foldl (fun s occ => insert occ.span s) acc.1 := by
  by_cases hl : 1 < entry.2.length
  · simp [dupStep, hl]
  · cases he : entry.2 with
    | nil => simp [dupStep, hl, he]
    | cons occ tail =>
      have ht : tail = [] := by
        cases tail with
        | nil => rfl
        | cons y ys =>
          rw [he] at hl
          exact absurd (by simp only [List.length_cons]; omega) hl
      subst ht
      by_cases hi : ((imported.find? (fun p => p.1 == occ.data)).isSome : Prop)
      · simp [dupStep, hl, he, hi]
      · simp [dupStep, hl, he, hi]

theorem dup_fold_fst (imported : List (String × List (FileId × Spanned String))) :
    ∀ (l : List (String × List (Spanned String))) (acc : Finset Span × List Error),
    ((l.foldl (dupStep imported) acc).1 =
      l.foldl (fun s e => e.2.foldl (fun s occ => insert occ.span s) s) acc.1) := by
  intro l
  induction l with
  | nil => intro acc; rfl
  | cons e rest ih =>
    intro acc
    rw [List.foldl_cons, List.foldl_cons, ih, dupStep_fst]

theorem dupErrored_fst (defined : List (String × List (Spanned String)))
    (imported : List (String × List (FileId × Spanned String))) :
    (dupErrored defined imported).1 = definedSpans defined :=
  dup_fold_fst imported defined (∅, [])

theorem unboundStep_fst (acc : Finset Span × List Error)
    (entry : String × List (Span × Spanned String)) :
    (unboundStep acc entry).1 = entry.2.foldl (fun s i => insert i.1 s) acc.1 := by
  unfold unboundStep
  induction entry.2 generalizing acc with
  | nil => rfl
  | cons i rest ih => rw [List.foldl_cons, List.foldl_cons, ih]

theorem unboundErrored_fst (unbound : List (String × List (Span × Spanned String))) :
    (unboundErrored unbound).1 = unboundOnSpans unbound := by
  unfold unboundErrored unboundOnSpans
  generalize hi : ((∅ : Finset Span), ([] : List Error)) = acc
  have hfst : acc.1 = (∅ : Finset Span) := by rw [← hi]
  rw [← hfst]
  clear hi hfst
  induction unbound generalizing acc with
  | nil => rfl
  | cons e rest ih => rw [List.foldl_cons, List.foldl_cons, ih, unboundStep_fst]

/-- What `update_file_errors` stores for a present file: binding diagnostics
appended after the existing error list, the recomputed export set and scope
snapshot, and the errored-top-level set replaced. -/
theorem update_file_errors_get (ext : Ext) (env : Env) (id : FileId) (file : File)
    (h : env.file_storage.get id = some file) :
    (env.update_file_errors ext id).file_storage.get id = some
      { file with
        errors := file.errors ++
          (dupErrored (ext.register file.ast.span id file.ast)
            (buildImported env file.imports)).2 ++
          (unboundErrored (ext.check file.ast.span id file.ast
            (buildImported env file.imports)).1).2,
        names := (((ext.register file.ast.span id file.ast).map (fun e => e.2)).flatten).dedup,
        scopes := (ext.check file.ast.span id file.ast
          (buildImported env file.imports)).2,
        errored_tl :=
          (dupErrored (ext.register file.ast.span id file.ast)
            (buildImported env file.imports)).1 ∪
          (unboundErrored (ext.check file.ast.span id file.ast
            (buildImported env file.imports)).1).1 } := by
  unfold Env.update_file_errors
  simp only [h]
  exact Storage.get_set _ id _ file h

/-- C1, amended: the errored-top-level set after the binding-resolution pass
is the spans of **all** occurrences of **every** locally defined name — a
name defined exactly once is recorded whether or not it collides with an
imported name (the code inserts the span before checking the collision) —
together with the spans carried in the first component of each
unresolved-reference entry. -/
theorem claim_C1_amended (ext : Ext) (env : Env) (id : FileId) (file : File)
    (h : env.file_storage.get id = some file) :
    ((env.update_file_errors ext id).file_storage.get id).map File.errored_tl =
      some (definedSpans (ext.register file.ast.span id file.ast) ∪
        unboundOnSpans ((ext.check file.ast.span id file.ast
          (buildImported env file.imports)).1)) := by
  rw [update_file_errors_get ext env id file h]
  exact congrArg some (by
    show (dupErrored (ext.register file.ast.span id file.ast)
        (buildImported env file.imports)).1 ∪
      (unboundErrored ((ext.check file.ast.span id file.ast
        (buildImported env file.imports)).1)).1 = _
    rw [dupErrored_fst, unboundErrored_fst])

/-- A resolver oracle that reports a single top-level definition `f` at span
5–6 and nothing else; no imports resolve, references all bind. -/
def extC1 : Ext :=
  ⟨fun _ => [], fun p => some p, fun _ => false, fun _ => none,
    fun _ => ([], Program.empty),
    fun _ _ _ => [("f", [⟨"f", ⟨5, 6⟩⟩])],
    fun _ _ _ _ => ([], Scopes.empty), fun _ => true⟩

/-- The empty seeded record. -/
def fileC1 : File := File.new emptyNode "" []

/-- An environment holding one file record under identifier 0. -/
def envC1 : Env := { Env.new with file_storage := ⟨[(0, fileC1)], 1⟩ }

/-- C1, counterexample: a name defined exactly once with no import collision
and no unresolved references.  The code records its span in the
errored-top-level set, but the claim's set — duplicates, colliding singles,
unresolved references — is empty, so the claim's "NOT in the set" fails. -/
theorem claim_C1_counterexample :
    ((envC1.update_file_errors extC1 0).file_storage.get 0).map File.errored_tl =
      some {(⟨5, 6⟩ : Span)} ∧
    claimedErrored (extC1.register fileC1.ast.span 0 fileC1.ast)
      (buildImported envC1 fileC1.imports)
      ((extC1.check fileC1.ast.span 0 fileC1.ast
        (buildImported envC1 fileC1.imports)).1) = ∅ ∧
    ({(⟨5, 6⟩ : Span)} : Finset Span) ≠ (∅ : Finset Span) := by
  refine ⟨rfl, rfl, Finset.singleton_ne_empty _⟩

/-- C1 witness: the amended characterization evaluated on the concrete
single-definition environment. -/
theorem claim_C1_amended_witness :
    ((envC1.update_file_errors extC1 0).file_storage.get 0).map File.errored_tl =
      some (definedSpans (extC1.register fileC1.ast.span 0 fileC1.ast) ∪
        unboundOnSpans ((extC1.check fileC1.ast.span 0 fileC1.ast
          (buildImported envC1 fileC1.imports)).1)) :=
  claim_C1_amended extC1 envC1 0 fileC1 (by rfl)

/-- C10: error-list accumulation.  (i) The binding-resolution pass —
applied by `compile` to every file of the diagnostic-refresh batch, whether
or not that file was reparsed in this call — *appends* its diagnostics to
the file's existing error list without clearing it, so repeated refreshes
duplicate binding diagnostics for files that were not reparsed.  (ii) Only
`parse_file` resets the list, replacing it with the fresh parse's errors. -/
theorem claim_C10_error_accumulation :
    (∀ (ext : Ext) (env : Env) (id : FileId) (file : File),
      env.file_storage.get id = some file →
      ((env.update_file_errors ext id).file_storage.get id).map File.errors =
        some (file.errors ++
          (dupErrored (ext.register file.ast.span id file.ast)
            (buildImported env file.imports)).2 ++
          (unboundErrored (ext.check file.ast.span id file.ast
            (buildImported env file.imports)).1).2)) ∧
    (∀ (ext : Ext) (env : Env) (id : FileId) (file : File),
      env.file_storage.get id = some file →
      (((env.parse_file ext id).1).file_storage.get id).map File.errors =
        some (parse (ext.lex file.source)).2) := by
  constructor
  · intro ext env id file h
    rw [update_file_errors_get ext env id file h]
    rfl
  · intro ext env id file h
    unfold Env.parse_file
    simp only [h]
    rw [Storage.get_set _ id _ file h]
    rfl

/-- C10 witness: both halves evaluated on the concrete environment — the
binding pass appends (here to the empty list), and a reparse installs the
parse's own (empty) error list. -/
theorem claim_C10_error_accumulation_witness :
    (((envC1.update_file_errors extC1 0).file_storage.get 0).map File.errors =
      some (fileC1.errors ++
        (dupErrored (extC1.register fileC1.ast.span 0 fileC1.ast)
          (buildImported envC1 fileC1.imports)).2 ++
        (unboundErrored (extC1.check fileC1.ast.span 0 fileC1.ast
          (buildImported envC1 fileC1.imports)).1).2)) ∧
    (((envC1.parse_file extC1 0).1).file_storage.get 0).map File.errors =
      some (parse (extC1.lex fileC1.source)).2 :=
  ⟨claim_C10_error_accumulation.1 extC1 envC1 0 fileC1 (by rfl),
    claim_C10_error_accumulation.2 extC1 envC1 0 fileC1 (by rfl)⟩

end Firefly
